import Mathlib

/-!
Shallow embedding of the minesweeper core from `src/App.tsx`: board
generation (`createBoard`), the adjacency helper (`getAdjacentCells`),
the reveal engine (`openCell` / `openCellRecursive`), the win check
(`checkWin`) and the timer formatter (`formatTime`), together with
proofs settling the specification's claims against these definitions.

A board is a list of rows of cells, mirroring the JS `Cell[][]`.
-/

set_option maxHeartbeats 1000000

set_option maxRecDepth 100000

abbrev BOARD_SIZE : Nat := 10

abbrev MINES_COUNT : Nat := 10

/-- One grid cell, mirroring the `Cell` record of the source. -/
structure Cell where
  isMine : Bool
  isOpen : Bool
  isFlagged : Bool
  adjacentMines : Nat
  deriving DecidableEq, Repr

/-- The grid of cells, as the JS array of arrays. -/
abbrev Board := List (List Cell)

/-- The cell value every position of a fresh board starts with. -/
def blankCell : Cell :=
  { isMine := false, isOpen := false, isFlagged := false, adjacentMines := 0 }

/-- The all-blank 10 by 10 grid `createBoard` builds before placing mines. -/
def blankBoard : Board :=
  List.replicate BOARD_SIZE (List.replicate BOARD_SIZE blankCell)

/-- `board[row][col]` for indices the source has already bounds-checked
against `BOARD_SIZE`; the default is irrelevant on the 10 by 10 boards the
program builds. -/
def bget (b : Board) (row col : Nat) : Cell :=
  (b.getD row []).getD col blankCell

/-- The assignment `board[row][col] = cell` (a no-op out of range, which the
source never does: every write is bounds-checked first). -/
def updateCell (b : Board) (row col : Nat) (cell : Cell) : Board :=
  b.set row ((b.getD row []).set col cell)

/-- The bound test `0 <= row < BOARD_SIZE && 0 <= col < BOARD_SIZE` that both
`getAdjacentCells` and `openCellRecursive` perform on their indices (the
source tests the negation and returns early). -/
def inBounds (row col : Int) : Prop :=
  0 ≤ row ∧ row < (BOARD_SIZE : Int) ∧ 0 ≤ col ∧ col < (BOARD_SIZE : Int)

instance (row col : Int) : Decidable (inBounds row col) :=
  inferInstanceAs
    (Decidable (0 ≤ row ∧ row < (BOARD_SIZE : Int) ∧ 0 ≤ col ∧ col < (BOARD_SIZE : Int)))

/-- The unguarded JS expression `board[row][col]`: `none` stands for the
`undefined` produced when either index is out of the arrays' range. -/
def cellAt? (b : Board) (row col : Int) : Option Cell :=
  if 0 ≤ row then
    match b[row.toNat]? with
    | none => none
    | some r => if 0 ≤ col then r[col.toNat]? else none
  else none

/-- The eight direction offsets listed in `getAdjacentCells`. -/
def directions : List (Int × Int) :=
  [(-1, -1), (-1, 0), (-1, 1), (0, -1), (0, 1), (1, -1), (1, 0), (1, 1)]

/-- `getAdjacentCells`: each direction is mapped to the neighbouring cell when
in bounds (`null` otherwise) and the `null` entries are filtered out. -/
def getAdjacentCells (b : Board) (row col : Int) : List Cell :=
  directions.filterMap fun d =>
    if inBounds (row + d.1) (col + d.2) then
      some (bget b (row + d.1).toNat (col + d.2).toNat)
    else none

/-- `formatTime`: minutes, a colon, and the seconds zero-padded below ten. -/
def formatTime (seconds : Nat) : String :=
  let mins := seconds / 60
  let secs := seconds % 60
  toString mins ++ ":" ++ (if secs < 10 then "0" else "") ++ toString secs

/-- A JS object is always truthy, and inside the `forEach` of
`openCellRecursive` the expression `neighbors[index]` is a cell object, so
the ternary `neighbors[index] ? 1 : 0` always yields 1. -/
def cellTruthy (_ : Cell) : Bool := true

/-- `openCellRecursive`, with explicit fuel for the recursion (the source
recurses directly; a lemma below shows every fuel of at least
`BOARD_SIZE + 1` yields the same result, which is the termination of the
source recursion). -/
def openCellRecursive : Nat → Board → Int → Int → Board
  | 0, b, _, _ => b
  | fuel + 1, b, row, col =>
    if inBounds row col then
      let i := row.toNat
      let j := col.toNat
      if (bget b i j).isOpen || (bget b i j).isMine then b
      else
        let b1 := updateCell b i j { bget b i j with isOpen := true }
        if (bget b1 i j).adjacentMines == 0 then
          (getAdjacentCells b1 row col).foldl
            (fun acc cell =>
              openCellRecursive fuel acc
                (row + (if cellTruthy cell then 1 else 0))
                (col + (if cellTruthy cell then 1 else 0)))
            b1
        else b1
    else b

/-- `checkWin`: false as soon as some cell is neither a mine nor open. -/
def checkWin (b : Board) : Bool :=
  b.all fun row => row.all fun cell => !(!cell.isMine && !cell.isOpen)

/-- The component state that `openCell` reads and writes. -/
structure GameState where
  board : Board
  isGameOver : Bool
  isGameWon : Bool
  showAllMines : Bool
  isTimerActive : Bool
  deriving DecidableEq

inductive Outcome where
  | inProgress
  | win
  | loss
  deriving DecidableEq, Repr

/-- The derived outcome: `loss` when `isGameOver` was set (mine revealed),
`win` when `isGameWon` was set, `inProgress` otherwise. -/
def outcome (s : GameState) : Outcome :=
  if s.isGameOver then Outcome.loss
  else if s.isGameWon then Outcome.win
  else Outcome.inProgress

/-- `openCell`. The result `none` models a thrown `TypeError`: when the two
state guards are false the source evaluates `board[row][col].isOpen`, which
throws when the coordinate is out of range (`board[row]` or
`board[row][col]` is `undefined`); the `||` chain short-circuits, so a
terminal state returns before any indexing. -/
def openCell (s : GameState) (row col : Int) : Option GameState :=
  if s.isGameOver || s.isGameWon then some s
  else
    match cellAt? s.board row col with
    | none => none
    | some cell =>
      if cell.isOpen || cell.isFlagged then some s
      else
        let newBoard := openCellRecursive (BOARD_SIZE + 1) s.board row col
        match cellAt? newBoard row col with
        | none => none
        | some cell2 =>
          if cell2.isMine then
            some { s with board := newBoard, isGameOver := true, showAllMines := true,
                          isTimerActive := false }
          else if checkWin newBoard then
            some { s with board := newBoard, isGameWon := true, isTimerActive := false }
          else
            some { s with board := newBoard }

/-- The assignment `board[r][c].isMine = true` of the placing loop. -/
def setMine (b : Board) (r c : Nat) : Board :=
  updateCell b r c { bget b r c with isMine := true }

/-- The mine-placing `while` loop of `createBoard`, driven by the stream of
random draws (one entry per `Math.floor(Math.random() * BOARD_SIZE)` pair);
`none` when the stream runs out before `MINES_COUNT` mines are placed. -/
def placeMines (b : Board) (placed : Nat)
    (samples : List (Fin BOARD_SIZE × Fin BOARD_SIZE)) : Option Board :=
  if placed < MINES_COUNT then
    match samples with
    | [] => none
    | (r, c) :: rest =>
      if (bget b r.val c.val).isMine then placeMines b placed rest
      else placeMines (setMine b r.val c.val) (placed + 1) rest
  else some b

/-- All coordinates in row-major order: the double `for` loop of
`createBoard`. -/
def allCoords : List (Nat × Nat) :=
  (List.range BOARD_SIZE).flatMap fun r => (List.range BOARD_SIZE).map fun c => (r, c)

/-- One iteration of the adjacent-mine counting loop: a non-mine cell gets
`adjacentCells.filter(cell => cell.isMine).length`. -/
def countStep (b : Board) (rc : Nat × Nat) : Board :=
  if (bget b rc.1 rc.2).isMine then b
  else
    updateCell b rc.1 rc.2
      { bget b rc.1 rc.2 with
        adjacentMines :=
          ((getAdjacentCells b (rc.1 : Int) (rc.2 : Int)).filter
            (fun cell => cell.isMine)).length }

/-- The counting pass of `createBoard` over the whole grid. -/
def computeCounts (b : Board) : Board :=
  allCoords.foldl countStep b

/-- `createBoard`: blank grid, mine placement, then the counting pass. -/
def createBoard (samples : List (Fin BOARD_SIZE × Fin BOARD_SIZE)) : Option Board :=
  (placeMines blankBoard 0 samples).map computeCounts

/-- A board is well formed when it is the 10 by 10 grid every board built by
`createBoard` is. -/
def WF (b : Board) : Prop :=
  b.length = BOARD_SIZE ∧ ∀ p < BOARD_SIZE, (b.getD p []).length = BOARD_SIZE

instance (b : Board) : Decidable (WF b) :=
  inferInstanceAs
    (Decidable (b.length = BOARD_SIZE ∧ ∀ p < BOARD_SIZE, (b.getD p []).length = BOARD_SIZE))

/-- Number of mine cells on the grid. -/
def mineCount (b : Board) : Nat :=
  allCoords.countP fun rc => (bget b rc.1 rc.2).isMine

/-- Number of open cells on the grid. -/
def countOpen (b : Board) : Nat :=
  allCoords.countP fun rc => (bget b rc.1 rc.2).isOpen

/-- The state after a reveal, defaulting to the input state on a fault. -/
def resultState (s : GameState) (row col : Int) : GameState :=
  (openCell s row col).getD s

/-- The state at the start of a game over a given board. -/
def freshState (b : Board) : GameState :=
  { board := b, isGameOver := false, isGameWon := false, showAllMines := false,
    isTimerActive := true }

/-- Spec-side neighbourhood: the eight offsets at Chebyshev distance one. -/
def chebyshevOffsets : List (Int × Int) :=
  ((List.range 3).flatMap fun i =>
    (List.range 3).map fun j => ((i : Int) - 1, (j : Int) - 1)).filter
    fun d => !(d.1 == 0 && d.2 == 0)

/-- Spec-side adjacent-mine count: the number of mine cells among the
up-to-eight Chebyshev neighbours clipped to the grid bounds. -/
def specNeighborMineCount (b : Board) (r c : Nat) : Nat :=
  chebyshevOffsets.countP fun d =>
    match cellAt? b ((r : Int) + d.1) ((c : Int) + d.2) with
    | some cell => cell.isMine
    | none => false

/-- Spec-side formatter: unpadded minutes, a colon, and the seconds
zero-padded to two digits. -/
def formatTimeSpec (s : Nat) : String :=
  toString (s / 60) ++ ":" ++
    (if s % 60 < 10 then "0" ++ toString (s % 60) else toString (s % 60))

/-- Pairs the two observables of a reveal: the board and the outcome. -/
def boardOutcome (s : GameState) : Board × Outcome :=
  (s.board, outcome s)

/-! ### Basic board lemmas -/

theorem length_updateCell (b : Board) (i j : Nat) (cell : Cell) :
    (updateCell b i j cell).length = b.length := by
  simp [updateCell]

theorem getD_updateCell_length (b : Board) (i j : Nat) (cell : Cell) (p : Nat) :
    ((updateCell b i j cell).getD p []).length = (b.getD p []).length := by
  unfold updateCell
  simp only [List.getD_eq_getElem?_getD, List.getElem?_set]
  by_cases hip : i = p
  · subst hip
    by_cases hlen : i < b.length
    · simp [hlen, List.getElem?_eq_getElem hlen]
    · simp [hlen, List.getElem?_eq_none (show b.length ≤ i by omega)]
  · simp [hip]

theorem bget_updateCell_ne (b : Board) (i j : Nat) (cell : Cell) (p q : Nat)
    (h : p ≠ i ∨ q ≠ j) :
    bget (updateCell b i j cell) p q = bget b p q := by
  unfold updateCell bget
  simp only [List.getD_eq_getElem?_getD, List.getElem?_set]
  by_cases hip : i = p
  · subst hip
    have hq : q ≠ j := h.resolve_left (by simp)
    by_cases hlen : i < b.length
    · simp [hlen, List.getElem?_eq_getElem hlen, List.getElem?_set_ne (Ne.symm hq)]
    · simp [hlen, List.getElem?_eq_none (show b.length ≤ i by omega)]
  · simp [hip]

theorem bget_updateCell_self (b : Board) (i j : Nat) (cell : Cell)
    (hi : i < b.length) (hj : j < (b.getD i []).length) :
    bget (updateCell b i j cell) i j = cell := by
  unfold updateCell bget
  rw [List.getD_eq_getElem?_getD b i] at hj
  simp only [List.getD_eq_getElem?_getD, List.getElem?_set, if_pos rfl, if_pos hi]
  rw [List.getElem?_eq_getElem hi] at hj ⊢
  simp only [Option.getD_some] at hj ⊢
  simp [List.getElem?_set, hj]

theorem WF_updateCell {b : Board} (hb : WF b) (i j : Nat) (cell : Cell) :
    WF (updateCell b i j cell) := by
  obtain ⟨hlen, hrows⟩ := hb
  refine ⟨by simp [updateCell, hlen], ?_⟩
  intro p hp
  rw [getD_updateCell_length]
  exact hrows p hp

theorem cellAt?_of_WF {b : Board} (hb : WF b) (row col : Int) :
    cellAt? b row col =
      if inBounds row col then some (bget b row.toNat col.toNat) else none := by
  obtain ⟨hlen, hrows⟩ := hb
  unfold cellAt? bget inBounds
  by_cases hr0 : 0 ≤ row
  · by_cases hrN : row < (BOARD_SIZE : Int)
    · have hlt : row.toNat < b.length := by omega
      have hrowlen : b[row.toNat].length = BOARD_SIZE := by
        have := hrows row.toNat (by omega)
        rwa [List.getD_eq_getElem?_getD, List.getElem?_eq_getElem hlt] at this
      rw [if_pos hr0, List.getElem?_eq_getElem hlt]
      by_cases hc0 : 0 ≤ col
      · by_cases hcN : col < (BOARD_SIZE : Int)
        · have hclt : col.toNat < b[row.toNat].length := by omega
          simp only [if_pos hc0,
            if_pos (show 0 ≤ row ∧ row < (BOARD_SIZE : Int) ∧ 0 ≤ col ∧
              col < (BOARD_SIZE : Int) from ⟨hr0, hrN, hc0, hcN⟩)]
          rw [List.getElem?_eq_getElem hclt]
          simp [List.getD_eq_getElem?_getD, List.getElem?_eq_getElem hlt,
            List.getElem?_eq_getElem hclt]
        · simp only [if_pos hc0,
            if_neg (show ¬(0 ≤ row ∧ row < (BOARD_SIZE : Int) ∧ 0 ≤ col ∧
              col < (BOARD_SIZE : Int)) from fun hh => absurd hh.2.2.2 hcN)]
          rw [List.getElem?_eq_none (by omega)]
      · simp only [if_neg hc0,
          if_neg (show ¬(0 ≤ row ∧ row < (BOARD_SIZE : Int) ∧ 0 ≤ col ∧
            col < (BOARD_SIZE : Int)) from fun hh => absurd hh.2.2.1 hc0)]
    · rw [if_pos hr0, List.getElem?_eq_none (by omega),
        if_neg (show ¬(0 ≤ row ∧ row < (BOARD_SIZE : Int) ∧ 0 ≤ col ∧
          col < (BOARD_SIZE : Int)) from fun hh => absurd hh.2.1 hrN)]
  · rw [if_neg hr0,
      if_neg (show ¬(0 ≤ row ∧ row < (BOARD_SIZE : Int) ∧ 0 ≤ col ∧
        col < (BOARD_SIZE : Int)) from fun hh => absurd hh.1 hr0)]

theorem bget_updateCell (b : Board) (i j : Nat) (cell : Cell) (p q : Nat) :
    bget (updateCell b i j cell) p q =
      if p = i ∧ q = j ∧ i < b.length ∧ j < (b.getD i []).length then cell
      else bget b p q := by
  by_cases hpq : p = i ∧ q = j
  · obtain ⟨rfl, rfl⟩ := hpq
    by_cases hi : p < b.length
    · by_cases hj : q < (b.getD p []).length
      · rw [if_pos ⟨rfl, rfl, hi, hj⟩, bget_updateCell_self b p q cell hi hj]
      · rw [if_neg (by tauto)]
        have hset : (List.getD b p []).set q cell = List.getD b p [] :=
          List.set_eq_of_length_le (by omega)
        unfold updateCell bget
        rw [hset]
        simp [List.getD_eq_getElem?_getD, List.getElem?_set, hi]
    · rw [if_neg (by tauto)]
      unfold updateCell
      rw [List.set_eq_of_length_le (by omega)]
  · rw [if_neg (by tauto), bget_updateCell_ne]
    tauto

/-- How one cell may change across a reveal: unchanged, or a closed non-mine
cell that became open. -/
def cellEvolves (x y : Cell) : Prop :=
  y = x ∨ (x.isMine = false ∧ x.isOpen = false ∧ y = { x with isOpen := true })

/-- How a board may change across a reveal: the shape is intact and every
cell evolves as in `cellEvolves`. -/
def boardEvolves (b b' : Board) : Prop :=
  b'.length = b.length ∧
  (∀ p, (b'.getD p []).length = (b.getD p []).length) ∧
  ∀ p q, cellEvolves (bget b p q) (bget b' p q)

theorem boardEvolves_refl (b : Board) : boardEvolves b b :=
  ⟨rfl, fun _ => rfl, fun _ _ => Or.inl rfl⟩

theorem cellEvolves_trans {x y z : Cell} (h1 : cellEvolves x y) (h2 : cellEvolves y z) :
    cellEvolves x z := by
  rcases h1 with rfl | ⟨hm, ho, rfl⟩
  · exact h2
  · rcases h2 with rfl | ⟨hm2, ho2, rfl⟩
    · exact Or.inr ⟨hm, ho, rfl⟩
    · simp at ho2

theorem boardEvolves_trans {a b c : Board} (h1 : boardEvolves a b) (h2 : boardEvolves b c) :
    boardEvolves a c :=
  ⟨h2.1.trans h1.1, fun p => (h2.2.1 p).trans (h1.2.1 p),
   fun p q => cellEvolves_trans (h1.2.2 p q) (h2.2.2 p q)⟩

theorem boardEvolves_foldl {α : Type} (f : Board → α → Board) (l : List α) (b : Board)
    (h : ∀ acc x, boardEvolves acc (f acc x)) : boardEvolves b (l.foldl f b) := by
  induction l generalizing b with
  | nil => exact boardEvolves_refl b
  | cons x xs ih => exact boardEvolves_trans (h b x) (ih (f b x))

theorem openCellRecursive_succ (fuel : Nat) (b : Board) (row col : Int) :
    openCellRecursive (fuel + 1) b row col =
      if inBounds row col then
        let i := row.toNat
        let j := col.toNat
        if (bget b i j).isOpen || (bget b i j).isMine then b
        else
          let b1 := updateCell b i j { bget b i j with isOpen := true }
          if (bget b1 i j).adjacentMines == 0 then
            (getAdjacentCells b1 row col).foldl
              (fun acc cell =>
                openCellRecursive fuel acc
                  (row + (if cellTruthy cell then 1 else 0))
                  (col + (if cellTruthy cell then 1 else 0)))
              b1
          else b1
      else b := rfl

theorem openCellRecursive_evolves (fuel : Nat) (b : Board) (row col : Int) :
    boardEvolves b (openCellRecursive fuel b row col) := by
  induction fuel generalizing b row col with
  | zero => exact boardEvolves_refl b
  | succ n ih =>
    rw [openCellRecursive_succ]
    by_cases hin : inBounds row col
    · rw [if_pos hin]
      cases hguard : ((bget b row.toNat col.toNat).isOpen ||
          (bget b row.toNat col.toNat).isMine) with
      | true => simp only [hguard]; exact boardEvolves_refl b
      | false =>
        simp only [hguard, Bool.false_eq_true, if_false]
        rw [Bool.or_eq_false_iff] at hguard
        have hb1 : boardEvolves b
            (updateCell b row.toNat col.toNat
              { bget b row.toNat col.toNat with isOpen := true }) := by
          refine ⟨length_updateCell .., fun p => getD_updateCell_length .., fun p q => ?_⟩
          rw [bget_updateCell]
          by_cases hc : p = row.toNat ∧ q = col.toNat ∧ row.toNat < b.length ∧
              col.toNat < (b.getD row.toNat []).length
          · rw [if_pos hc]
            obtain ⟨rfl, rfl, _, _⟩ := hc
            exact Or.inr ⟨hguard.2, hguard.1, rfl⟩
          · rw [if_neg hc]; exact Or.inl rfl
        cases hz : ((bget (updateCell b row.toNat col.toNat
            { bget b row.toNat col.toNat with isOpen := true }) row.toNat
              col.toNat).adjacentMines == 0) with
        | false => simp only [hz, Bool.false_eq_true, if_false]; exact hb1
        | true =>
          simp only [hz, if_true]
          exact boardEvolves_trans hb1
            (boardEvolves_foldl _ _ _ (fun acc cell => ih acc _ _))
    · rw [if_neg hin]; exact boardEvolves_refl b

theorem truthy_offset (cell : Cell) : (if cellTruthy cell then (1 : Int) else 0) = 1 := rfl

theorem ocr_stable (n : Nat) :
    ∀ (f1 f2 : Nat) (b : Board) (row col : Int),
      (BOARD_SIZE : Int) - row ≤ (n : Int) → n + 1 ≤ f1 → n + 1 ≤ f2 →
      openCellRecursive f1 b row col = openCellRecursive f2 b row col := by
  induction n with
  | zero =>
    intro f1 f2 b row col hrow h1 h2
    obtain ⟨g1, rfl⟩ : ∃ g, f1 = g + 1 := ⟨f1 - 1, by omega⟩
    obtain ⟨g2, rfl⟩ : ∃ g, f2 = g + 1 := ⟨f2 - 1, by omega⟩
    have hnb : ¬ inBounds row col := by
      unfold inBounds; intro hh; omega
    rw [openCellRecursive_succ, openCellRecursive_succ, if_neg hnb, if_neg hnb]
  | succ n ih =>
    intro f1 f2 b row col hrow h1 h2
    obtain ⟨g1, rfl⟩ : ∃ g, f1 = g + 1 := ⟨f1 - 1, by omega⟩
    obtain ⟨g2, rfl⟩ : ∃ g, f2 = g + 1 := ⟨f2 - 1, by omega⟩
    rw [openCellRecursive_succ, openCellRecursive_succ]
    by_cases hin : inBounds row col
    · rw [if_pos hin, if_pos hin]
      cases hguard : ((bget b row.toNat col.toNat).isOpen ||
          (bget b row.toNat col.toNat).isMine) with
      | true => simp only [hguard, if_true]
      | false =>
        simp only [hguard, Bool.false_eq_true, if_false]
        cases hz : ((bget (updateCell b row.toNat col.toNat
            { bget b row.toNat col.toNat with isOpen := true }) row.toNat
              col.toNat).adjacentMines == 0) with
        | false => simp only [hz, Bool.false_eq_true, if_false]
        | true =>
          simp only [hz, if_true]
          apply List.foldl_ext
          intro acc cell hmem
          simp only [truthy_offset]
          exact ih g1 g2 acc (row + 1) (col + 1) (by omega) (by omega) (by omega)
    · rw [if_neg hin, if_neg hin]

theorem openCellRecursive_fuel_independent (b : Board) (row col : Int) (f1 f2 : Nat)
    (h1 : BOARD_SIZE + 1 ≤ f1) (h2 : BOARD_SIZE + 1 ≤ f2) :
    openCellRecursive f1 b row col = openCellRecursive f2 b row col := by
  by_cases hin : inBounds row col
  · exact ocr_stable BOARD_SIZE f1 f2 b row col
      (by unfold inBounds at hin; omega) (by omega) (by omega)
  · obtain ⟨g1, rfl⟩ : ∃ g, f1 = g + 1 := ⟨f1 - 1, by omega⟩
    obtain ⟨g2, rfl⟩ : ∃ g, f2 = g + 1 := ⟨f2 - 1, by omega⟩
    rw [openCellRecursive_succ, openCellRecursive_succ, if_neg hin, if_neg hin]

theorem reveal_noop (s : GameState) (row col : Int) (cell : Cell)
    (hcell : cellAt? s.board row col = some cell)
    (h : cell.isOpen = true ∨ cell.isFlagged = true ∨
      s.isGameOver = true ∨ s.isGameWon = true) :
    openCell s row col = some s := by
  unfold openCell
  by_cases hterm : (s.isGameOver || s.isGameWon) = true
  · rw [if_pos hterm]
  · rw [if_neg hterm, hcell]
    have hof : (cell.isOpen || cell.isFlagged) = true := by
      rcases h with h | h | h | h
      · simp [h]
      · simp [h]
      · exact absurd (by simp [h]) hterm
      · exact absurd (by simp [h]) hterm
    simp only [hof, if_true]

theorem reveal_frame (s : GameState) (row col : Int) (s' : GameState)
    (h : openCell s row col = some s') :
    boardEvolves s.board s'.board := by
  unfold openCell at h
  by_cases hterm : (s.isGameOver || s.isGameWon) = true
  · rw [if_pos hterm] at h
    injection h with h
    subst h
    exact boardEvolves_refl _
  · rw [if_neg hterm] at h
    cases hcell : cellAt? s.board row col with
    | none => rw [hcell] at h; exact absurd h (by simp)
    | some cell =>
      rw [hcell] at h
      simp only [] at h
      by_cases hof : (cell.isOpen || cell.isFlagged) = true
      · rw [if_pos hof] at h
        injection h with h
        subst h
        exact boardEvolves_refl _
      · rw [if_neg hof] at h
        have hev : boardEvolves s.board
            (openCellRecursive (BOARD_SIZE + 1) s.board row col) :=
          openCellRecursive_evolves _ _ _ _
        cases hc2 : cellAt? (openCellRecursive (BOARD_SIZE + 1) s.board row col) row col with
        | none => rw [hc2] at h; exact absurd h (by simp)
        | some cell2 =>
          rw [hc2] at h
          simp only [] at h
          by_cases hm : cell2.isMine = true
          · rw [if_pos hm] at h
            injection h with h
            subst h
            exact hev
          · rw [if_neg hm] at h
            by_cases hw : checkWin (openCellRecursive (BOARD_SIZE + 1) s.board row col) = true
            · rw [if_pos hw] at h
              injection h with h
              subst h
              exact hev
            · rw [if_neg hw] at h
              injection h with h
              subst h
              exact hev

theorem reveal_deterministic_aux (s1 s2 : GameState) (row col : Int)
    (hb : s1.board = s2.board) (hgo : s1.isGameOver = s2.isGameOver)
    (hgw : s1.isGameWon = s2.isGameWon) :
    (openCell s1 row col).map boardOutcome = (openCell s2 row col).map boardOutcome := by
  obtain ⟨b1, go1, gw1, sam1, ta1⟩ := s1
  obtain ⟨b2, go2, gw2, sam2, ta2⟩ := s2
  simp only at hb hgo hgw
  subst hb; subst hgo; subst hgw
  simp only [openCell]
  cases hterm : (go1 || gw1) with
  | true => simp [boardOutcome, outcome]
  | false =>
    obtain ⟨h1, h2⟩ := Bool.or_eq_false_iff.mp hterm
    subst h1; subst h2
    cases hcell : cellAt? b1 row col with
    | none => simp
    | some cell =>
      simp only []
      cases hof : (cell.isOpen || cell.isFlagged) with
      | true => simp [boardOutcome, outcome]
      | false =>
        simp only [Bool.false_eq_true, if_false]
        cases hc2 : cellAt? (openCellRecursive (BOARD_SIZE + 1) b1 row col) row col with
        | none => simp
        | some cell2 =>
          simp only []
          cases hm : cell2.isMine with
          | true => simp [boardOutcome, outcome]
          | false =>
            simp only [Bool.false_eq_true, if_false]
            cases hw : checkWin (openCellRecursive (BOARD_SIZE + 1) b1 row col) with
            | true => simp [boardOutcome, outcome]
            | false => simp [boardOutcome, outcome]

theorem all_iff_getD {α : Type} (l : List α) (p : α → Bool) (d : α) :
    l.all p = true ↔ ∀ i < l.length, p (l.getD i d) = true := by
  rw [List.all_eq_true]
  constructor
  · intro h i hi
    rw [List.getD_eq_getElem?_getD, List.getElem?_eq_getElem hi]
    simp only [Option.getD_some]
    exact h _ (List.getElem_mem hi)
  · intro h x hx
    obtain ⟨i, hi, rfl⟩ := List.mem_iff_getElem.mp hx
    have hK := h i hi
    rw [List.getD_eq_getElem?_getD, List.getElem?_eq_getElem hi] at hK
    simpa using hK

theorem checkWin_iff {b : Board} (hb : WF b) :
    checkWin b = true ↔ ∀ r < BOARD_SIZE, ∀ c < BOARD_SIZE,
      ¬((bget b r c).isMine = false ∧ (bget b r c).isOpen = false) := by
  obtain ⟨hblen, hbrows⟩ := hb
  unfold checkWin
  rw [all_iff_getD _ _ []]
  constructor
  · intro h r hr c hc
    have hrow := hbrows r hr
    have hK := (all_iff_getD _ _ blankCell).mp (h r (by omega)) c (by omega)
    intro hcon
    unfold bget at hcon
    rw [hcon.1, hcon.2] at hK
    simp at hK
  · intro h r hr
    rw [all_iff_getD _ _ blankCell]
    intro c hc
    have hr10 : r < BOARD_SIZE := by omega
    have hrow := hbrows r hr10
    have hc10 : c < BOARD_SIZE := by omega
    have hK := h r hr10 c hc10
    unfold bget at hK
    revert hK
    generalize (List.getD b r []).getD c blankCell = x
    intro hK
    obtain ⟨xm, xo, xf, xa⟩ := x
    cases xm <;> cases xo <;> simp_all

theorem WF_of_boardEvolves {b b' : Board} (hb : WF b) (h : boardEvolves b b') :
    WF b' := by
  obtain ⟨hl, hrows, _⟩ := h
  exact ⟨hl.trans hb.1, fun p hp => (hrows p).trans (hb.2 p hp)⟩

theorem cellAt?_some_elim {b : Board} (hb : WF b) {row col : Int} {cell : Cell}
    (h : cellAt? b row col = some cell) :
    inBounds row col ∧ cell = bget b row.toNat col.toNat := by
  rw [cellAt?_of_WF hb] at h
  by_cases hin : inBounds row col
  · rw [if_pos hin] at h
    injection h with h
    exact ⟨hin, h.symm⟩
  · rw [if_neg hin] at h
    cases h

theorem reveal_mine (s : GameState) (row col : Int) (cell : Cell)
    (hwf : WF s.board)
    (hgo : s.isGameOver = false) (hgw : s.isGameWon = false)
    (hcell : cellAt? s.board row col = some cell)
    (hmine : cell.isMine = true) (hopen : cell.isOpen = false)
    (hflag : cell.isFlagged = false) :
    openCell s row col =
      some { s with isGameOver := true, showAllMines := true, isTimerActive := false } ∧
    outcome { s with isGameOver := true, showAllMines := true, isTimerActive := false } =
      Outcome.loss := by
  obtain ⟨hin, hcb⟩ := cellAt?_some_elim hwf hcell
  have hnb : openCellRecursive (BOARD_SIZE + 1) s.board row col = s.board := by
    rw [show (BOARD_SIZE + 1) = 10 + 1 from rfl, openCellRecursive_succ, if_pos hin]
    have hg : ((bget s.board row.toNat col.toNat).isOpen ||
        (bget s.board row.toNat col.toNat).isMine) = true := by
      rw [← hcb, hmine]
      simp
    simp only [hg, if_true]
  constructor
  · unfold openCell
    rw [if_neg (by rw [hgo, hgw]; simp), hcell]
    simp only []
    rw [if_neg (by rw [hopen, hflag]; simp)]
    rw [show (BOARD_SIZE + 1) = 10 + 1 from rfl] at hnb
    rw [hnb, hcell]
    simp only []
    rw [if_pos hmine]
  · unfold outcome
    simp

theorem reveal_win (s : GameState) (row col : Int) (s' : GameState)
    (hwf : WF s.board)
    (hgo : s.isGameOver = false) (hgw : s.isGameWon = false)
    (hnomine : ∀ r < BOARD_SIZE, ∀ c < BOARD_SIZE,
      (bget s.board r c).isMine = true → (bget s.board r c).isOpen = false)
    (h : openCell s row col = some s')
    (hwin : outcome s' = Outcome.win) :
    (∀ r < BOARD_SIZE, ∀ c < BOARD_SIZE,
      (bget s'.board r c).isMine = false → (bget s'.board r c).isOpen = true) ∧
    (∀ r < BOARD_SIZE, ∀ c < BOARD_SIZE,
      (bget s'.board r c).isMine = true → (bget s'.board r c).isOpen = false) := by
  unfold openCell at h
  rw [if_neg (by rw [hgo, hgw]; simp)] at h
  cases hcell : cellAt? s.board row col with
  | none => rw [hcell] at h; exact absurd h (by simp)
  | some cell =>
    rw [hcell] at h
    simp only [] at h
    by_cases hof : (cell.isOpen || cell.isFlagged) = true
    · rw [if_pos hof] at h
      injection h with h
      subst h
      simp [outcome, hgo, hgw] at hwin
    · rw [if_neg hof] at h
      have hev := openCellRecursive_evolves (BOARD_SIZE + 1) s.board row col
      have hwf' := WF_of_boardEvolves hwf hev
      cases hc2 : cellAt? (openCellRecursive (BOARD_SIZE + 1) s.board row col) row col with
      | none => rw [hc2] at h; exact absurd h (by simp)
      | some cell2 =>
        rw [hc2] at h
        simp only [] at h
        by_cases hm : cell2.isMine = true
        · rw [if_pos hm] at h
          injection h with h
          subst h
          simp [outcome] at hwin
        · rw [if_neg hm] at h
          by_cases hw : checkWin (openCellRecursive (BOARD_SIZE + 1) s.board row col) = true
          · rw [if_pos hw] at h
            injection h with h
            subst h
            constructor
            · intro r hr c hc hmine
              have hnm := (checkWin_iff hwf').mp hw r hr c hc
              simp only [] at hmine ⊢
              cases ho : (bget (openCellRecursive (BOARD_SIZE + 1) s.board row col) r c).isOpen
              · exact absurd ⟨hmine, ho⟩ hnm
              · rfl
            · intro r hr c hc hmine
              simp only [] at hmine ⊢
              rcases hev.2.2 r c with heq | ⟨hm0, ho0, hupd⟩
              · rw [heq] at hmine ⊢
                exact hnomine r hr c hc hmine
              · rw [hupd] at hmine
                simp [hm0] at hmine
          · rw [if_neg hw] at h
            injection h with h
            subst h
            simp [outcome, hgo, hgw] at hwin

theorem mem_allCoords {rc : Nat × Nat} :
    rc ∈ allCoords ↔ rc.1 < BOARD_SIZE ∧ rc.2 < BOARD_SIZE := by
  obtain ⟨r, c⟩ := rc
  simp only [allCoords, List.mem_flatMap, List.mem_map, List.mem_range, Prod.mk.injEq]
  constructor
  · rintro ⟨a, ha, bb, hb, rfl, rfl⟩
    exact ⟨ha, hb⟩
  · rintro ⟨hr, hc⟩
    exact ⟨r, hr, c, hc, rfl, rfl⟩

theorem nodup_allCoords : allCoords.Nodup := by decide

theorem countP_update_mem {l : List (Nat × Nat)} (hnd : l.Nodup) {rc : Nat × Nat}
    (hmem : rc ∈ l) (p q : Nat × Nat → Bool)
    (hp : p rc = false) (hq : q rc = true)
    (hother : ∀ x, x ≠ rc → q x = p x) :
    l.countP q = l.countP p + 1 := by
  obtain ⟨l1, l2, rfl⟩ := List.append_of_mem hmem
  rw [List.nodup_append] at hnd
  have h1 : rc ∉ l1 := (List.disjoint_cons_right.mp hnd.2.2).1
  have h2 : rc ∉ l2 := (List.nodup_cons.mp hnd.2.1).1
  rw [List.countP_append, List.countP_append, List.countP_cons, List.countP_cons]
  have e1 : l1.countP q = l1.countP p :=
    List.countP_congr fun x hx => by
      rw [hother x (fun he => h1 (he ▸ hx))]
  have e2 : l2.countP q = l2.countP p :=
    List.countP_congr fun x hx => by
      rw [hother x (fun he => h2 (he ▸ hx))]
  rw [e1, e2, hp, hq]
  simp
  omega

theorem bget_setMine_fields (b : Board) (r c p q : Nat) :
    (bget (setMine b r c) p q).isOpen = (bget b p q).isOpen ∧
    (bget (setMine b r c) p q).isFlagged = (bget b p q).isFlagged ∧
    (bget (setMine b r c) p q).adjacentMines = (bget b p q).adjacentMines := by
  unfold setMine
  rw [bget_updateCell]
  by_cases hcnd : p = r ∧ q = c ∧ r < b.length ∧ c < (b.getD r []).length
  · obtain ⟨rfl, rfl, hb1, hb2⟩ := hcnd
    rw [if_pos ⟨rfl, rfl, hb1, hb2⟩]
    exact ⟨rfl, rfl, rfl⟩
  · rw [if_neg hcnd]
    exact ⟨rfl, rfl, rfl⟩

theorem mineCount_setMine {b : Board} (hwf : WF b) {r c : Nat}
    (hr : r < BOARD_SIZE) (hc : c < BOARD_SIZE)
    (hm : (bget b r c).isMine = false) :
    mineCount (setMine b r c) = mineCount b + 1 := by
  obtain ⟨hblen, hbrows⟩ := hwf
  unfold mineCount
  apply countP_update_mem nodup_allCoords ((@mem_allCoords (r, c)).mpr ⟨hr, hc⟩)
  · exact hm
  · unfold setMine
    rw [bget_updateCell_self b r c _ (by omega) (by rw [hbrows r hr]; omega)]
  · intro x hxne
    unfold setMine
    rw [bget_updateCell_ne]
    obtain ⟨x1, x2⟩ := x
    by_cases h1 : x1 = r
    · subst h1
      right
      intro h2
      exact hxne (by rw [show x2 = c from h2])
    · left
      exact h1

/-- The fields `placeMines` never touches. -/
def nonMineFieldsEq (b b' : Board) : Prop :=
  ∀ p q, (bget b' p q).isOpen = (bget b p q).isOpen ∧
         (bget b' p q).isFlagged = (bget b p q).isFlagged ∧
         (bget b' p q).adjacentMines = (bget b p q).adjacentMines

theorem placeMines_spec :
    ∀ (samples : List (Fin BOARD_SIZE × Fin BOARD_SIZE)) (b : Board) (placed : Nat)
      (b' : Board),
      placeMines b placed samples = some b' →
      WF b → mineCount b = placed → placed ≤ MINES_COUNT →
      WF b' ∧ mineCount b' = MINES_COUNT ∧ nonMineFieldsEq b b' := by
  intro samples
  induction samples with
  | nil =>
    intro b placed b' h hwf hmc hle
    rw [placeMines] at h
    by_cases hlt : placed < MINES_COUNT
    · rw [if_pos hlt] at h
      cases h
    · rw [if_neg hlt] at h
      injection h with h
      subst h
      exact ⟨hwf, by omega, fun p q => ⟨rfl, rfl, rfl⟩⟩
  | cons sample rest ih =>
    intro b placed b' h hwf hmc hle
    rw [placeMines] at h
    by_cases hlt : placed < MINES_COUNT
    · rw [if_pos hlt] at h
      obtain ⟨r, c⟩ := sample
      simp only [] at h
      by_cases hmine : (bget b r.val c.val).isMine = true
      · rw [if_pos hmine] at h
        exact ih b placed b' h hwf hmc hle
      · rw [if_neg hmine] at h
        rw [Bool.not_eq_true] at hmine
        have hwf2 : WF (setMine b r.val c.val) := WF_updateCell hwf r.val c.val _
        have hmc2 : mineCount (setMine b r.val c.val) = placed + 1 := by
          rw [mineCount_setMine hwf r.isLt c.isLt hmine, hmc]
        obtain ⟨hwfr, hmcr, hmisc⟩ := ih _ _ _ h hwf2 hmc2 (by omega)
        refine ⟨hwfr, hmcr, fun p q => ?_⟩
        obtain ⟨e1, e2, e3⟩ := hmisc p q
        obtain ⟨f1, f2, f3⟩ := bget_setMine_fields b r.val c.val p q
        exact ⟨e1.trans f1, e2.trans f2, e3.trans f3⟩
    · rw [if_neg hlt] at h
      injection h with h
      subst h
      exact ⟨hwf, by omega, fun p q => ⟨rfl, rfl, rfl⟩⟩

theorem prod_ne_split {x y : Nat × Nat} (h : x ≠ y) : x.1 ≠ y.1 ∨ x.2 ≠ y.2 := by
  by_cases h1 : x.1 = y.1
  · right
    intro h2
    exact h (Prod.ext h1 h2)
  · left
    exact h1

theorem bget_countStep_fields (b : Board) (rc : Nat × Nat) (p q : Nat) :
    (bget (countStep b rc) p q).isMine = (bget b p q).isMine ∧
    (bget (countStep b rc) p q).isOpen = (bget b p q).isOpen ∧
    (bget (countStep b rc) p q).isFlagged = (bget b p q).isFlagged := by
  unfold countStep
  by_cases hm : (bget b rc.1 rc.2).isMine = true
  · rw [if_pos hm]
    exact ⟨rfl, rfl, rfl⟩
  · rw [if_neg hm, bget_updateCell]
    by_cases hcnd : p = rc.1 ∧ q = rc.2 ∧ rc.1 < b.length ∧ rc.2 < (b.getD rc.1 []).length
    · obtain ⟨rfl, rfl, hb1, hb2⟩ := hcnd
      rw [if_pos ⟨rfl, rfl, hb1, hb2⟩]
      exact ⟨rfl, rfl, rfl⟩
    · rw [if_neg hcnd]
      exact ⟨rfl, rfl, rfl⟩

theorem countStep_shape (b : Board) (rc : Nat × Nat) :
    (countStep b rc).length = b.length ∧
    ∀ p, ((countStep b rc).getD p []).length = (b.getD p []).length := by
  unfold countStep
  by_cases hm : (bget b rc.1 rc.2).isMine = true
  · rw [if_pos hm]
    exact ⟨rfl, fun _ => rfl⟩
  · rw [if_neg hm]
    exact ⟨length_updateCell .., fun p => getD_updateCell_length ..⟩

theorem foldl_countStep_fields (l : List (Nat × Nat)) (b : Board) (p q : Nat) :
    (bget (l.foldl countStep b) p q).isMine = (bget b p q).isMine ∧
    (bget (l.foldl countStep b) p q).isOpen = (bget b p q).isOpen ∧
    (bget (l.foldl countStep b) p q).isFlagged = (bget b p q).isFlagged := by
  induction l generalizing b with
  | nil => exact ⟨rfl, rfl, rfl⟩
  | cons x xs ih =>
    obtain ⟨e1, e2, e3⟩ := ih (countStep b x)
    obtain ⟨f1, f2, f3⟩ := bget_countStep_fields b x p q
    exact ⟨e1.trans f1, e2.trans f2, e3.trans f3⟩

theorem foldl_countStep_shape (l : List (Nat × Nat)) (b : Board) :
    (l.foldl countStep b).length = b.length ∧
    ∀ p, ((l.foldl countStep b).getD p []).length = (b.getD p []).length := by
  induction l generalizing b with
  | nil => exact ⟨rfl, fun _ => rfl⟩
  | cons x xs ih =>
    obtain ⟨e1, e2⟩ := ih (countStep b x)
    obtain ⟨f1, f2⟩ := countStep_shape b x
    exact ⟨e1.trans f1, fun p => (e2 p).trans (f2 p)⟩

theorem WF_computeCounts {b : Board} (hwf : WF b) : WF (computeCounts b) := by
  obtain ⟨h1, h2⟩ := foldl_countStep_shape allCoords b
  exact ⟨h1.trans hwf.1, fun p hp => (h2 p).trans (hwf.2 p hp)⟩

theorem foldl_countStep_untouched (l : List (Nat × Nat)) (b : Board) (r c : Nat)
    (hnot : (r, c) ∉ l) :
    bget (l.foldl countStep b) r c = bget b r c := by
  induction l generalizing b with
  | nil => rfl
  | cons x xs ih =>
    rw [List.foldl_cons, ih (countStep b x) (fun hh => hnot (List.mem_cons_of_mem x hh))]
    have hne : (r, c) ≠ x := fun he => hnot (he ▸ List.mem_cons_self x xs)
    unfold countStep
    by_cases hm : (bget b x.1 x.2).isMine = true
    · rw [if_pos hm]
    · rw [if_neg hm, bget_updateCell_ne]
      exact prod_ne_split hne

theorem adjMines_congr {b1 b2 : Board}
    (h : ∀ p q, (bget b1 p q).isMine = (bget b2 p q).isMine) (row col : Int) :
    ((getAdjacentCells b1 row col).filter (fun cell => cell.isMine)).length =
    ((getAdjacentCells b2 row col).filter (fun cell => cell.isMine)).length := by
  unfold getAdjacentCells
  generalize directions = ds
  induction ds with
  | nil => rfl
  | cons d rest ih =>
    rw [List.filterMap_cons, List.filterMap_cons]
    by_cases hin : inBounds (row + d.1) (col + d.2)
    · rw [if_pos hin, if_pos hin]
      simp only [List.filter_cons]
      rw [h]
      cases hm : (bget b2 (row + d.1).toNat (col + d.2).toNat).isMine
      · simp only [hm, Bool.false_eq_true, if_false]
        exact ih
      · simp only [hm, if_true, List.length_cons]
        rw [ih]
    · rw [if_neg hin, if_neg hin]
      exact ih

theorem computeCounts_apply {b : Board} (hwf : WF b) {r c : Nat}
    (hr : r < BOARD_SIZE) (hc : c < BOARD_SIZE) :
    bget (computeCounts b) r c =
      if (bget b r c).isMine = true then bget b r c
      else { bget b r c with adjacentMines :=
        ((getAdjacentCells b (r : Int) (c : Int)).filter
          (fun cell => cell.isMine)).length } := by
  have hmem : (r, c) ∈ allCoords := (@mem_allCoords (r, c)).mpr ⟨hr, hc⟩
  obtain ⟨l1, l2, hsplit⟩ := List.append_of_mem hmem
  have hnd := nodup_allCoords
  rw [hsplit, List.nodup_append] at hnd
  have h1 : (r, c) ∉ l1 := (List.disjoint_cons_right.mp hnd.2.2).1
  have h2 : (r, c) ∉ l2 := (List.nodup_cons.mp hnd.2.1).1
  unfold computeCounts
  rw [hsplit, List.foldl_append, List.foldl_cons,
    foldl_countStep_untouched l2 _ r c h2]
  have hb1 : bget (List.foldl countStep b l1) r c = bget b r c :=
    foldl_countStep_untouched l1 b r c h1
  have hmine1 : ∀ p q,
      (bget (List.foldl countStep b l1) p q).isMine = (bget b p q).isMine :=
    fun p q => (foldl_countStep_fields l1 b p q).1
  have hshape := foldl_countStep_shape l1 b
  have hcs : countStep (List.foldl countStep b l1) (r, c) =
      if (bget (List.foldl countStep b l1) r c).isMine = true then
        List.foldl countStep b l1
      else
        updateCell (List.foldl countStep b l1) r c
          { bget (List.foldl countStep b l1) r c with
            adjacentMines :=
              ((getAdjacentCells (List.foldl countStep b l1) (r : Int) (c : Int)).filter
                (fun cell => cell.isMine)).length } := rfl
  rw [hcs]
  by_cases hm : (bget b r c).isMine = true
  · rw [if_pos (by rw [hb1]; exact hm), if_pos hm]
    exact hb1
  · rw [if_neg (by rw [hb1]; exact hm), if_neg hm]
    have hlen1 : r < (List.foldl countStep b l1).length := by
      have e1 := hshape.1
      have e2 := hwf.1
      omega
    have hlen2 : c < ((List.foldl countStep b l1).getD r []).length := by
      have e1 := hshape.2 r
      have e2 := hwf.2 r hr
      omega
    rw [bget_updateCell_self _ _ _ _ hlen1 hlen2]
    rw [hb1, adjMines_congr hmine1]

theorem filterMap_count_aux (b : Board) (row col : Int) (ds : List (Int × Int)) :
    ((ds.filterMap fun d =>
        if inBounds (row + d.1) (col + d.2) then
          some (bget b (row + d.1).toNat (col + d.2).toNat)
        else none).filter (fun cell => cell.isMine)).length =
      ds.countP fun d =>
        if inBounds (row + d.1) (col + d.2) then
          (bget b (row + d.1).toNat (col + d.2).toNat).isMine
        else false := by
  induction ds with
  | nil => rfl
  | cons d rest ih =>
    rw [List.filterMap_cons, List.countP_cons]
    by_cases hin : inBounds (row + d.1) (col + d.2)
    · simp only [if_pos hin, List.filter_cons]
      cases hm : (bget b (row + d.1).toNat (col + d.2).toNat).isMine
      · simp only [hm, Bool.false_eq_true, if_false, Nat.add_zero]
        exact ih
      · simp only [hm, if_true, List.length_cons]
        rw [ih]
    · simp only [if_neg hin, Bool.false_eq_true, if_false, Nat.add_zero]
      exact ih

theorem adjMines_eq_spec {b : Board} (hwf : WF b) (r c : Nat) :
    ((getAdjacentCells b (r : Int) (c : Int)).filter (fun cell => cell.isMine)).length =
    specNeighborMineCount b r c := by
  unfold specNeighborMineCount getAdjacentCells
  rw [show chebyshevOffsets = directions from by decide]
  rw [filterMap_count_aux]
  apply List.countP_congr
  intro d hd
  rw [cellAt?_of_WF hwf]
  by_cases hin : inBounds ((r : Int) + d.1) ((c : Int) + d.2)
  · rw [if_pos hin, if_pos hin]
  · rw [if_neg hin, if_neg hin]

theorem mineCount_congr {b b' : Board}
    (h : ∀ p q, (bget b' p q).isMine = (bget b p q).isMine) :
    mineCount b' = mineCount b :=
  List.countP_congr fun rc _ => by rw [h rc.1 rc.2]

theorem bget_blank (p q : Nat) : bget blankBoard p q = blankCell := by
  unfold bget blankBoard
  by_cases hp : p < BOARD_SIZE
  · rw [List.getD_eq_getElem?_getD
      (List.replicate BOARD_SIZE (List.replicate BOARD_SIZE blankCell)) p []]
    rw [List.getElem?_replicate, if_pos hp]
    simp only [Option.getD_some]
    by_cases hq : q < BOARD_SIZE
    · rw [List.getD_eq_getElem?_getD, List.getElem?_replicate, if_pos hq]
      rfl
    · rw [List.getD_eq_getElem?_getD, List.getElem?_replicate, if_neg hq]
      rfl
  · rw [List.getD_eq_getElem?_getD
      (List.replicate BOARD_SIZE (List.replicate BOARD_SIZE blankCell)) p []]
    rw [List.getElem?_replicate, if_neg hp]
    rfl

theorem specNeighborMineCount_congr {b b' : Board} (hwf : WF b) (hwf' : WF b')
    (h : ∀ p q, (bget b' p q).isMine = (bget b p q).isMine) (r c : Nat) :
    specNeighborMineCount b' r c = specNeighborMineCount b r c := by
  rw [← adjMines_eq_spec hwf' r c, ← adjMines_eq_spec hwf r c]
  exact adjMines_congr h (r : Int) (c : Int)

theorem createBoard_spec_core (samples : List (Fin BOARD_SIZE × Fin BOARD_SIZE))
    (b : Board) (h : createBoard samples = some b) :
    WF b ∧ mineCount b = MINES_COUNT ∧
    (∀ r < BOARD_SIZE, ∀ c < BOARD_SIZE,
      (bget b r c).isOpen = false ∧ (bget b r c).isFlagged = false) ∧
    (∀ r < BOARD_SIZE, ∀ c < BOARD_SIZE, (bget b r c).isMine = false →
      (bget b r c).adjacentMines = specNeighborMineCount b r c) := by
  unfold createBoard at h
  cases hp : placeMines blankBoard 0 samples with
  | none => rw [hp] at h; cases h
  | some bp =>
    rw [hp] at h
    simp only [Option.map_some'] at h
    injection h with h
    subst h
    obtain ⟨hwfp, hmcp, hfields⟩ :=
      placeMines_spec samples blankBoard 0 bp hp (by decide) (by decide) (by decide)
    have hminesEq : ∀ p q, (bget (computeCounts bp) p q).isMine = (bget bp p q).isMine :=
      fun p q => (foldl_countStep_fields allCoords bp p q).1
    have hwfb := WF_computeCounts hwfp
    refine ⟨hwfb, ?_, ?_, ?_⟩
    · rw [mineCount_congr hminesEq, hmcp]
    · intro r hr c hc
      obtain ⟨e1, e2, e3⟩ := foldl_countStep_fields allCoords bp r c
      obtain ⟨f1, f2, f3⟩ := hfields r c
      rw [bget_blank] at f1 f2
      unfold computeCounts
      exact ⟨e2.trans f1, e3.trans f2⟩
    · intro r hr c hc hmine
      have hminep : (bget bp r c).isMine = false := by
        rw [← hminesEq r c]
        exact hmine
      have happ := computeCounts_apply hwfp hr hc
      rw [if_neg (by rw [hminep]; simp)] at happ
      unfold computeCounts at happ ⊢
      rw [happ]
      simp only []
      rw [adjMines_eq_spec hwfp r c]
      apply (specNeighborMineCount_congr hwfp hwfb hminesEq r c).symm

theorem formatTime_eq_spec (s : Nat) : formatTime s = formatTimeSpec s := by
  simp only [formatTime, formatTimeSpec]
  by_cases h : s % 60 < 10
  · rw [if_pos h, if_pos h, String.append_assoc]
  · rw [if_neg h, if_neg h, String.append_empty]

/-- Helper: an option known to hold a value equals `some` of its default read. -/
theorem option_eq_some_getD {α : Type} {o : Option α} (d : α) (h : o.isSome = true) :
    o = some (o.getD d) := by
  cases o with
  | none => cases h
  | some a => rfl

/-! ### Concrete boards used by the counterexamples and witnesses -/

/-- Ten mines across row 0; row 1 carries the matching counts 2/3/…/3/2; the
zero region is rows 2 through 9. -/
def rowBoard : Board :=
  (List.replicate BOARD_SIZE { blankCell with isMine := true }) ::
  (List.ofFn fun c : Fin BOARD_SIZE =>
    { blankCell with adjacentMines := if c.val = 0 ∨ c.val = 9 then 2 else 3 }) ::
  List.replicate 8 (List.replicate BOARD_SIZE blankCell)

/-- A board with an already-open mine at (0,0) and a single closed numbered
safe cell at (5,5); every other cell is open and safe. -/
def c6Board : Board :=
  List.ofFn fun r : Fin BOARD_SIZE => List.ofFn fun c : Fin BOARD_SIZE =>
    if r.val = 0 ∧ c.val = 0 then { blankCell with isMine := true, isOpen := true }
    else if r.val = 5 ∧ c.val = 5 then { blankCell with adjacentMines := 1 }
    else { blankCell with isOpen := true }

/-- A board one reveal away from a legitimate win: a closed mine at (0,0) and
a single closed numbered safe cell at (5,5). -/
def c6WinBoard : Board :=
  List.ofFn fun r : Fin BOARD_SIZE => List.ofFn fun c : Fin BOARD_SIZE =>
    if r.val = 0 ∧ c.val = 0 then { blankCell with isMine := true }
    else if r.val = 5 ∧ c.val = 5 then { blankCell with adjacentMines := 1 }
    else { blankCell with isOpen := true }

/-- Ten distinct sample draws for the generation witness. -/
def wSamples : List (Fin BOARD_SIZE × Fin BOARD_SIZE) :=
  [(0, 0), (1, 2), (2, 4), (3, 6), (4, 8), (5, 1), (6, 3), (7, 5), (8, 7), (9, 9)]

/-- The board the generation witness produces. -/
def wBoard : Board := (createBoard wSamples).getD []

/-! ### Claim theorems -/

/-- C1: the claimed flood-fill completeness fails on the code. On a
well-formed ten-mine board whose counts are all correct (mines across row 0,
zero region rows 2 through 9), revealing the zero-count cell (5,5) opens
only the five diagonal cells (5,5) … (9,9): the zero-count true neighbour
(6,5) stays closed, because `openCellRecursive` computes every neighbour
offset as `neighbors[index] ? 1 : 0`, which is always `(+1,+1)`. -/
theorem C1_flood_fill_diagonal_only :
    WF rowBoard ∧ mineCount rowBoard = MINES_COUNT ∧
    (∀ r < BOARD_SIZE, ∀ c < BOARD_SIZE, (bget rowBoard r c).isMine = false →
      (bget rowBoard r c).adjacentMines = specNeighborMineCount rowBoard r c) ∧
    (bget rowBoard 5 5).isMine = false ∧ (bget rowBoard 5 5).isOpen = false ∧
    (bget rowBoard 5 5).isFlagged = false ∧ (bget rowBoard 5 5).adjacentMines = 0 ∧
    (bget rowBoard 6 5).isMine = false ∧ (bget rowBoard 6 5).adjacentMines = 0 ∧
    (openCell (freshState rowBoard) 5 5).isSome = true ∧
    countOpen (resultState (freshState rowBoard) 5 5).board = 5 ∧
    (bget (resultState (freshState rowBoard) 5 5).board 6 5).isOpen = false := by
  decide

/-- C2 counterexample: revealing the unopened, unflagged mine at (0,0) of a
fresh game does return Loss, but it leaves the mine's `is_open` false —
the claim that reveal sets that cell's `is_open` to true is wrong. -/
theorem C2_counterexample :
    (bget rowBoard 0 0).isMine = true ∧ (bget rowBoard 0 0).isOpen = false ∧
    (bget rowBoard 0 0).isFlagged = false ∧
    (openCell (freshState rowBoard) 0 0).isSome = true ∧
    outcome (resultState (freshState rowBoard) 0 0) = Outcome.loss ∧
    (bget (resultState (freshState rowBoard) 0 0).board 0 0).isOpen = false := by
  decide

/-- C2 (amended): for every well-formed board in a non-terminal state and
every in-bounds, unopened, unflagged mine target, reveal returns outcome
Loss and leaves the entire board unchanged: the target mine's `is_open`
stays false, and no mine cell's `is_open` is set. -/
theorem C2_mine_reveal_loss (s : GameState) (row col : Int) (cell : Cell)
    (hwf : WF s.board) (hgo : s.isGameOver = false) (hgw : s.isGameWon = false)
    (hcell : cellAt? s.board row col = some cell)
    (hmine : cell.isMine = true) (hopen : cell.isOpen = false)
    (hflag : cell.isFlagged = false) :
    openCell s row col =
      some { s with isGameOver := true, showAllMines := true, isTimerActive := false } ∧
    outcome { s with isGameOver := true, showAllMines := true, isTimerActive := false } =
      Outcome.loss :=
  reveal_mine s row col cell hwf hgo hgw hcell hmine hopen hflag

theorem C2_witness :
    openCell (freshState rowBoard) 0 0 =
      some { board := rowBoard, isGameOver := true, isGameWon := false,
             showAllMines := true, isTimerActive := false } ∧
    outcome { board := rowBoard, isGameOver := true, isGameWon := false,
              showAllMines := true, isTimerActive := false } = Outcome.loss :=
  C2_mine_reveal_loss (freshState rowBoard) 0 0 (bget rowBoard 0 0) (by decide) rfl rfl
    (by decide) (by decide) (by decide) (by decide)

/-- C3: the claimed out-of-bounds silent no-op fails on the code. From a
fresh (non-terminal) game, `openCell` evaluates `board[row][col].isOpen`
before any bounds check, so every out-of-range coordinate throws a
`TypeError` (modelled as `none`) instead of leaving the board unchanged. -/
theorem C3_out_of_bounds_faults :
    WF rowBoard ∧
    (freshState rowBoard).isGameOver = false ∧
    (freshState rowBoard).isGameWon = false ∧
    openCell (freshState rowBoard) (-1) 0 = none ∧
    openCell (freshState rowBoard) 10 3 = none ∧
    openCell (freshState rowBoard) 0 (-2) = none ∧
    openCell (freshState rowBoard) 3 10 = none := by
  decide

/-- C4: reveal is a no-op returning the state unchanged whenever the
in-bounds target cell is already open or flagged, or the game is already in
a terminal (won or lost) state. -/
theorem C4_reveal_precondition_noop (s : GameState) (row col : Int) (cell : Cell)
    (hcell : cellAt? s.board row col = some cell)
    (h : cell.isOpen = true ∨ cell.isFlagged = true ∨
      s.isGameOver = true ∨ s.isGameWon = true) :
    openCell s row col = some s :=
  reveal_noop s row col cell hcell h

theorem C4_witness :
    openCell { board := rowBoard, isGameOver := true, isGameWon := false,
               showAllMines := false, isTimerActive := false } 0 0 =
      some { board := rowBoard, isGameOver := true, isGameWon := false,
             showAllMines := false, isTimerActive := false } :=
  C4_reveal_precondition_noop _ 0 0 (bget rowBoard 0 0) (by decide)
    (Or.inr (Or.inr (Or.inl rfl)))

/-- C5: every board produced by generation is a well-formed 10 by 10 grid
with exactly `MINES_COUNT` mines, no open or flagged cell, and every
non-mine cell's `adjacent_mines` equal to the number of mine cells among its
up-to-eight Chebyshev neighbours clipped to the grid. -/
theorem C5_generation_invariants (samples : List (Fin BOARD_SIZE × Fin BOARD_SIZE))
    (b : Board) (h : createBoard samples = some b) :
    WF b ∧ mineCount b = MINES_COUNT ∧
    (∀ r < BOARD_SIZE, ∀ c < BOARD_SIZE,
      (bget b r c).isOpen = false ∧ (bget b r c).isFlagged = false) ∧
    (∀ r < BOARD_SIZE, ∀ c < BOARD_SIZE, (bget b r c).isMine = false →
      (bget b r c).adjacentMines = specNeighborMineCount b r c) :=
  createBoard_spec_core samples b h

theorem C5_witness :
    WF wBoard ∧ mineCount wBoard = MINES_COUNT ∧
    (∀ r < BOARD_SIZE, ∀ c < BOARD_SIZE,
      (bget wBoard r c).isOpen = false ∧ (bget wBoard r c).isFlagged = false) ∧
    (∀ r < BOARD_SIZE, ∀ c < BOARD_SIZE, (bget wBoard r c).isMine = false →
      (bget wBoard r c).adjacentMines = specNeighborMineCount wBoard r c) :=
  C5_generation_invariants wSamples wBoard (option_eq_some_getD [] (by decide))

/-- C6 counterexample: on a board that already has an open mine at (0,0),
revealing the last closed safe cell (5,5) from a non-terminal state returns
Win while a mine cell is open — the claim's consequence "no mine cell open
after Win" fails as stated over every board. -/
theorem C6_counterexample :
    WF c6Board ∧
    (freshState c6Board).isGameOver = false ∧
    (freshState c6Board).isGameWon = false ∧
    (bget c6Board 0 0).isMine = true ∧ (bget c6Board 0 0).isOpen = true ∧
    (openCell (freshState c6Board) 5 5).isSome = true ∧
    outcome (resultState (freshState c6Board) 5 5) = Outcome.win ∧
    (bget (resultState (freshState c6Board) 5 5).board 0 0).isMine = true ∧
    (bget (resultState (freshState c6Board) 5 5).board 0 0).isOpen = true := by
  decide

/-- C6 (amended): the win predicate is true exactly when no cell is a closed
non-mine; and whenever reveal, started from a non-terminal state over a
well-formed board with no open mine cell, returns Win, the resulting board
has every non-mine cell open and no mine cell open. -/
theorem C6_win_predicate :
    (∀ b : Board, WF b →
      (checkWin b = true ↔ ∀ r < BOARD_SIZE, ∀ c < BOARD_SIZE,
        ¬((bget b r c).isMine = false ∧ (bget b r c).isOpen = false))) ∧
    (∀ (s : GameState) (row col : Int) (s' : GameState), WF s.board →
      s.isGameOver = false → s.isGameWon = false →
      (∀ r < BOARD_SIZE, ∀ c < BOARD_SIZE,
        (bget s.board r c).isMine = true → (bget s.board r c).isOpen = false) →
      openCell s row col = some s' → outcome s' = Outcome.win →
      (∀ r < BOARD_SIZE, ∀ c < BOARD_SIZE,
        (bget s'.board r c).isMine = false → (bget s'.board r c).isOpen = true) ∧
      (∀ r < BOARD_SIZE, ∀ c < BOARD_SIZE,
        (bget s'.board r c).isMine = true → (bget s'.board r c).isOpen = false)) :=
  ⟨fun _ hb => checkWin_iff hb,
   fun s row col s' hwf hgo hgw hnm h hwin => reveal_win s row col s' hwf hgo hgw hnm h hwin⟩

theorem C6_witness :
    (bget (resultState (freshState c6WinBoard) 5 5).board 5 5).isOpen = true ∧
    (bget (resultState (freshState c6WinBoard) 5 5).board 0 0).isOpen = false :=
  ⟨(C6_win_predicate.2 (freshState c6WinBoard) 5 5
      (resultState (freshState c6WinBoard) 5 5) (by decide) rfl rfl (by decide)
      (by decide) (by decide)).1 5 (by decide) 5 (by decide) (by decide),
   (C6_win_predicate.2 (freshState c6WinBoard) 5 5
      (resultState (freshState c6WinBoard) 5 5) (by decide) rfl rfl (by decide)
      (by decide) (by decide)).2 0 (by decide) 0 (by decide) (by decide)⟩

/-- C7: a reveal that returns a state (does not fault) leaves every cell's
`is_mine`, `is_flagged` and `adjacent_mines` unchanged; the only field it may
change is `is_open`, and only from false to true. -/
theorem C7_reveal_frame (s : GameState) (row col : Int) (s' : GameState)
    (h : openCell s row col = some s') :
    ∀ p q, (bget s'.board p q).isMine = (bget s.board p q).isMine ∧
      (bget s'.board p q).isFlagged = (bget s.board p q).isFlagged ∧
      (bget s'.board p q).adjacentMines = (bget s.board p q).adjacentMines ∧
      ((bget s'.board p q).isOpen = (bget s.board p q).isOpen ∨
        ((bget s.board p q).isOpen = false ∧ (bget s'.board p q).isOpen = true)) := by
  intro p q
  have hev := reveal_frame s row col s' h
  rcases hev.2.2 p q with heq | ⟨hm, ho, hupd⟩
  · rw [heq]
    exact ⟨rfl, rfl, rfl, Or.inl rfl⟩
  · rw [hupd]
    exact ⟨rfl, rfl, rfl, Or.inr ⟨ho, rfl⟩⟩

theorem C7_witness :
    (bget (resultState (freshState rowBoard) 5 5).board 0 0).isMine =
      (bget rowBoard 0 0).isMine ∧
    (bget (resultState (freshState rowBoard) 5 5).board 0 0).isFlagged =
      (bget rowBoard 0 0).isFlagged ∧
    (bget (resultState (freshState rowBoard) 5 5).board 0 0).adjacentMines =
      (bget rowBoard 0 0).adjacentMines ∧
    ((bget (resultState (freshState rowBoard) 5 5).board 0 0).isOpen =
      (bget rowBoard 0 0).isOpen ∨
      ((bget rowBoard 0 0).isOpen = false ∧
       (bget (resultState (freshState rowBoard) 5 5).board 0 0).isOpen = true)) :=
  C7_reveal_frame (freshState rowBoard) 5 5 (resultState (freshState rowBoard) 5 5)
    (by decide) 0 0

/-- C8: the reveal recursion terminates — its result is independent of the
fuel bound once the fuel reaches `BOARD_SIZE + 1`, the depth the recursion
can never exceed because each recursive call moves one row down and every
cell transitions to open at most once. -/
theorem C8_reveal_terminates (b : Board) (row col : Int) (f1 f2 : Nat)
    (h1 : BOARD_SIZE + 1 ≤ f1) (h2 : BOARD_SIZE + 1 ≤ f2) :
    openCellRecursive f1 b row col = openCellRecursive f2 b row col :=
  openCellRecursive_fuel_independent b row col f1 f2 h1 h2

theorem C8_witness :
    openCellRecursive 11 rowBoard 5 5 = openCellRecursive 12 rowBoard 5 5 :=
  C8_reveal_terminates rowBoard 5 5 11 12 (by decide) (by decide)

/-- C9: the time formatter returns `M:SS`, the unpadded minutes `s / 60`, a
colon, and `s % 60` zero-padded to two digits; in particular 0, 59, 60 and
125 seconds format as 0:00, 0:59, 1:00 and 2:05. -/
theorem C9_format_time :
    (∀ s : Nat, formatTime s = formatTimeSpec s) ∧
    formatTime 0 = "0:00" ∧ formatTime 59 = "0:59" ∧
    formatTime 60 = "1:00" ∧ formatTime 125 = "2:05" :=
  ⟨formatTime_eq_spec, by decide, by decide, by decide, by decide⟩

/-- C10: reveal is deterministic — its observables (the updated board and
the outcome) are a function of the input board, the terminal flags and the
coordinate alone; two runs from states agreeing on those produce identical
boards and outcomes, and no randomness enters reveal. -/
theorem C10_reveal_deterministic (s1 s2 : GameState) (row col : Int)
    (hb : s1.board = s2.board) (hgo : s1.isGameOver = s2.isGameOver)
    (hgw : s1.isGameWon = s2.isGameWon) :
    (openCell s1 row col).map boardOutcome = (openCell s2 row col).map boardOutcome :=
  reveal_deterministic_aux s1 s2 row col hb hgo hgw

theorem C10_witness :
    (openCell (freshState rowBoard) 5 5).map boardOutcome =
    (openCell { board := rowBoard, isGameOver := false, isGameWon := false,
                showAllMines := true, isTimerActive := false } 5 5).map boardOutcome :=
  C10_reveal_deterministic _ _ 5 5 rfl rfl rfl
